import Mathlib

/-!
Verification development for the `x-delete` repository: a shallow embedding
of its orchestration loop (`src/main.ts`), usage budget tracker
(`src/usage-tracker.ts`), API response handling (`src/x-api.ts`), scroll
collection (`src/scroll.ts`) and UI action executor (`src/x-actions.ts`),
together with theorems settling the specification's claims.
-/

namespace XDelete

/-! ### Usage budget tracker (`src/usage-tracker.ts`) -/

/-- `UsageState` from `usage-tracker.ts`: persisted day/month stamps and counters. -/
structure UsageState where
  dayStamp : String
  monthStamp : String
  dailyCount : Nat
  monthlyCount : Nat
  deriving DecidableEq, Repr

/-- `UsageOptions`: `dailyLimit` / `monthlyLimit`, `none` meaning unset (unlimited). -/
structure UsageOptions where
  dailyLimit : Option Nat
  monthlyLimit : Option Nat
  deriving DecidableEq, Repr

/-- The current calendar keys, as produced by `todayStamp()` and `monthStamp()`. -/
structure CalNow where
  today : String
  month : String
  deriving DecidableEq, Repr

/-- `UsageTracker.refreshWindows`: on stamp mismatch, adopt the new stamp and
zero the corresponding counter. -/
def refreshWindows (now : CalNow) (s : UsageState) : UsageState :=
  let s1 := if s.dayStamp ≠ now.today then
    { s with dayStamp := now.today, dailyCount := 0 } else s
  if s1.monthStamp ≠ now.month then
    { s1 with monthStamp := now.month, monthlyCount := 0 } else s1

/-- `UsageTracker.hasDailyBudget`. -/
def hasDailyBudget (opts : UsageOptions) (s : UsageState) (cost : Nat) : Bool :=
  match opts.dailyLimit with
  | none => true
  | some l => s.dailyCount + cost ≤ l

/-- `UsageTracker.hasMonthlyBudget`. -/
def hasMonthlyBudget (opts : UsageOptions) (s : UsageState) (cost : Nat) : Bool :=
  match opts.monthlyLimit with
  | none => true
  | some l => s.monthlyCount + cost ≤ l

/-- Which window a `UsageLimitError` names. -/
inductive UsageWindow where
  | daily
  | monthly
  deriving DecidableEq, Repr

/-- Result of one `consume` call: the tracker's in-memory state afterwards,
the sequence of states written to the usage file during the call, and the
window named by the thrown `UsageLimitError` (`none` on success). -/
structure ConsumeResult where
  state : UsageState
  writes : List UsageState
  failed : Option UsageWindow
  deriving DecidableEq, Repr

/-- `UsageTracker.consume`: refresh windows, check the daily then the monthly
budget (throwing a `UsageLimitError` naming the window), then increment both
counters and persist. -/
def consume (opts : UsageOptions) (now : CalNow) (s : UsageState) (cost : Nat) :
    ConsumeResult :=
  let s := refreshWindows now s
  if hasDailyBudget opts s cost = false then ⟨s, [], some .daily⟩
  else if hasMonthlyBudget opts s cost = false then ⟨s, [], some .monthly⟩
  else
    let s' := { s with dailyCount := s.dailyCount + cost,
                       monthlyCount := s.monthlyCount + cost }
    ⟨s', [s'], none⟩

/-- `UsageTracker.remainingDaily`: `none` models `Number.POSITIVE_INFINITY`;
`Nat` truncated subtraction models `Math.max(limit - count, 0)`. -/
def remainingDaily (opts : UsageOptions) (s : UsageState) : Option Nat :=
  match opts.dailyLimit with
  | none => none
  | some l => some (l - s.dailyCount)

/-- `UsageTracker.remainingMonthly`. -/
def remainingMonthly (opts : UsageOptions) (s : UsageState) : Option Nat :=
  match opts.monthlyLimit with
  | none => none
  | some l => some (l - s.monthlyCount)

/-- The `UsageTracker` constructor: `loadState()` result passed through
`refreshWindows`. -/
def trackerInit (now : CalNow) (loaded : UsageState) : UsageState :=
  refreshWindows now loaded

theorem hasDailyBudget_false_iff (opts : UsageOptions) (s : UsageState) (cost : Nat) :
    hasDailyBudget opts s cost = false ↔
      ∃ l, opts.dailyLimit = some l ∧ l < s.dailyCount + cost := by
  cases h : opts.dailyLimit <;> simp [hasDailyBudget, h]

theorem hasMonthlyBudget_false_iff (opts : UsageOptions) (s : UsageState) (cost : Nat) :
    hasMonthlyBudget opts s cost = false ↔
      ∃ l, opts.monthlyLimit = some l ∧ l < s.monthlyCount + cost := by
  cases h : opts.monthlyLimit <;> simp [hasMonthlyBudget, h]

theorem refreshWindows_of_current (now : CalNow) (s : UsageState)
    (hd : s.dayStamp = now.today) (hm : s.monthStamp = now.month) :
    refreshWindows now s = s := by
  simp [refreshWindows, hd, hm]

/-- **C2.** `UsageTracker.consume(cost, label)` fails with a `UsageLimitError`
naming the exceeded window exactly when `currentCount + cost` would exceed that
window's configured limit (an unset limit meaning unlimited, the daily window
checked first); on success it increments both counters by `cost` and persists
the usage state before returning, and on failure both counters are unchanged
and nothing is written. Stated for calls whose stored stamps match the current
calendar keys (window rollover is the subject of C3). -/
theorem consume_quota_contract (opts : UsageOptions) (now : CalNow)
    (s : UsageState) (cost : Nat)
    (hd : s.dayStamp = now.today) (hm : s.monthStamp = now.month) :
    ((consume opts now s cost).failed.isSome ↔
        (∃ l, opts.dailyLimit = some l ∧ l < s.dailyCount + cost) ∨
        (∃ l, opts.monthlyLimit = some l ∧ l < s.monthlyCount + cost)) ∧
    ((consume opts now s cost).failed = some UsageWindow.daily →
        ∃ l, opts.dailyLimit = some l ∧ l < s.dailyCount + cost) ∧
    ((consume opts now s cost).failed = some UsageWindow.monthly →
        ∃ l, opts.monthlyLimit = some l ∧ l < s.monthlyCount + cost) ∧
    ((consume opts now s cost).failed = none →
        (consume opts now s cost).state.dailyCount = s.dailyCount + cost ∧
        (consume opts now s cost).state.monthlyCount = s.monthlyCount + cost ∧
        (consume opts now s cost).writes = [(consume opts now s cost).state]) ∧
    ((consume opts now s cost).failed.isSome →
        (consume opts now s cost).state.dailyCount = s.dailyCount ∧
        (consume opts now s cost).state.monthlyCount = s.monthlyCount ∧
        (consume opts now s cost).writes = []) := by
  have hrefresh : refreshWindows now s = s := refreshWindows_of_current now s hd hm
  cases hdb : hasDailyBudget opts s cost with
  | false =>
    have hdx := (hasDailyBudget_false_iff opts s cost).mp hdb
    simp [consume, hrefresh, hdb]
    exact ⟨Or.inl hdx, hdx⟩
  | true =>
    cases hmb : hasMonthlyBudget opts s cost with
    | false =>
      have hmx := (hasMonthlyBudget_false_iff opts s cost).mp hmb
      simp [consume, hrefresh, hdb, hmb]
      exact ⟨Or.inr hmx, hmx⟩
    | true =>
      have hdx : ∀ x, opts.dailyLimit = some x → s.dailyCount + cost ≤ x := by
        intro x hx
        have h2 := hdb
        simp [hasDailyBudget, hx] at h2
        exact h2
      have hmx : ∀ x, opts.monthlyLimit = some x → s.monthlyCount + cost ≤ x := by
        intro x hx
        have h2 := hmb
        simp [hasMonthlyBudget, hx] at h2
        exact h2
      simp [consume, hrefresh, hdb, hmb]
      exact ⟨hdx, hmx⟩

/-- Witness for C2: a concrete in-budget call succeeds and adds `cost` to both
counters, persisting the new state. -/
theorem consume_quota_contract_witness :
    (consume ⟨some 2, some 10⟩ ⟨"d1", "m1"⟩ ⟨"d1", "m1", 1, 3⟩ 1).state.dailyCount = 1 + 1 ∧
    (consume ⟨some 2, some 10⟩ ⟨"d1", "m1"⟩ ⟨"d1", "m1", 1, 3⟩ 1).state.monthlyCount = 3 + 1 := by
  have h := consume_quota_contract ⟨some 2, some 10⟩ ⟨"d1", "m1"⟩ ⟨"d1", "m1", 1, 3⟩ 1 rfl rfl
  have hnone : (consume ⟨some 2, some 10⟩ ⟨"d1", "m1"⟩ ⟨"d1", "m1", 1, 3⟩ 1).failed = none := by
    decide
  exact ⟨(h.2.2.2.1 hnone).1, (h.2.2.2.1 hnone).2.1⟩

/-- **C3, counterexample.** The claim says the remaining-count reads window-check
(zero a stale counter) before evaluating. The code's `remainingDaily` reads the
stored counter as-is: on a state with a stale `dayStamp` and `dailyCount = 5`
under limit 10 it returns 5, whereas evaluating after the claimed rollover
(`refreshWindows`) yields 10. -/
theorem remaining_read_skips_rollover_cex :
    remainingDaily ⟨some 10, none⟩ ⟨"d1", "m1", 5, 0⟩ = some 5 ∧
    remainingDaily ⟨some 10, none⟩
      (refreshWindows ⟨"d2", "m1"⟩ ⟨"d1", "m1", 5, 0⟩) = some 10 ∧
    some 5 ≠ (some 10 : Option Nat) := by
  decide

/-- **C3, amended.** The stored calendar keys are compared — and mismatching
counters zeroed — at tracker construction and at the start of every `consume`,
before the limit is evaluated (in particular a stale `dayStamp` with
`dailyCount = N` yields `dailyCount = 1` after the next cost-1 `consume`);
the remaining-count reads perform no such check: their result is independent of
the stored stamps. -/
theorem window_rollover_on_consume (now : CalNow) (s : UsageState) :
    (∀ l, s.dayStamp ≠ now.today → s.monthStamp = now.month → 1 ≤ l →
      (consume ⟨some l, none⟩ now s 1).failed = none ∧
      (consume ⟨some l, none⟩ now s 1).state.dailyCount = 1) ∧
    (s.dayStamp ≠ now.today →
      (trackerInit now s).dailyCount = 0 ∧ (trackerInit now s).dayStamp = now.today) ∧
    (∀ opts d m,
      remainingDaily opts { s with dayStamp := d, monthStamp := m } =
        remainingDaily opts s ∧
      remainingMonthly opts { s with dayStamp := d, monthStamp := m } =
        remainingMonthly opts s) := by
  refine ⟨?_, ?_, ?_⟩
  · intro l hday hmonth hl
    have hr : refreshWindows now s =
        { s with dayStamp := now.today, dailyCount := 0 } := by
      simp [refreshWindows, hday, hmonth]
    constructor <;>
      simp [consume, hr, hasDailyBudget, hasMonthlyBudget, hl]
  · intro hday
    constructor <;> (simp [trackerInit, refreshWindows, hday]; split <;> rfl)
  · intro opts d m
    constructor <;> simp [remainingDaily, remainingMonthly]

/-- Witness for C3's amended theorem: a stale day with `dailyCount = 7` is
reset, so the next cost-1 `consume` yields `dailyCount = 1`. -/
theorem window_rollover_on_consume_witness :
    (consume ⟨some 10, none⟩ ⟨"d2", "m1"⟩ ⟨"d1", "m1", 7, 0⟩ 1).failed = none ∧
    (consume ⟨some 10, none⟩ ⟨"d2", "m1"⟩ ⟨"d1", "m1", 7, 0⟩ 1).state.dailyCount = 1 :=
  (window_rollover_on_consume ⟨"d2", "m1"⟩ ⟨"d1", "m1", 7, 0⟩).1 10
    (by decide) rfl (by decide)

/-! ### Incremental discovery (`src/scroll.ts`) -/

/-- `MAX_SCROLL_CYCLES` from `scroll.ts`. -/
def MAX_SCROLL_CYCLES : Nat := 12

/-- `STAGNANT_LIMIT` from `scroll.ts`. -/
def STAGNANT_LIMIT : Nat := 3

/-- `MIN_BATCH_SIZE` from `scroll.ts`. -/
def MIN_BATCH_SIZE : Nat := 20

/-- The inner `for (const card of cards)` loop of `autoScrollAndCollect`:
insert every card whose derived key is not yet in the `collected` map,
returning the updated collection (insertion order) and the `newCards` count. -/
def addCards : List String → List String → List String × Nat
  | collected, [] => (collected, 0)
  | collected, c :: cs =>
    if c ∈ collected then addCards collected cs
    else
      let r := addCards (collected ++ [c]) cs
      (r.1, r.2 + 1)

/-- The cycle loop of `autoScrollAndCollect`; `samples cycle` is the list of
derived keys that sampling the page (`findTweetCards` + `deriveCardKey`)
yields at that cycle. Returns the collected keys and the number of sampling
cycles executed. -/
def scrollLoop (samples : Nat → List String) :
    Nat → Nat → List String → Nat → List String × Nat
  | cycle, 0, collected, _ => (collected, cycle)
  | cycle, fuel + 1, collected, stagnantRounds =>
    let r := addCards collected (samples cycle)
    let stagnant2 := if r.2 = 0 then stagnantRounds + 1 else 0
    if MIN_BATCH_SIZE ≤ r.1.length ∨ STAGNANT_LIMIT ≤ stagnant2 then (r.1, cycle + 1)
    else scrollLoop samples (cycle + 1) fuel r.1 stagnant2

/-- `autoScrollAndCollect`: up to `MAX_SCROLL_CYCLES` sampling cycles starting
from an empty collection and zero stagnant rounds. -/
def autoScrollAndCollect (samples : Nat → List String) : List String × Nat :=
  scrollLoop samples 0 MAX_SCROLL_CYCLES [] 0

theorem scrollLoop_succ (samples : Nat → List String) (cycle fuel : Nat)
    (collected : List String) (stagnantRounds : Nat) :
    scrollLoop samples cycle (fuel + 1) collected stagnantRounds =
      (let r := addCards collected (samples cycle)
       let stagnant2 := if r.2 = 0 then stagnantRounds + 1 else 0
       if MIN_BATCH_SIZE ≤ r.1.length ∨ STAGNANT_LIMIT ≤ stagnant2 then
         (r.1, cycle + 1)
       else scrollLoop samples (cycle + 1) fuel r.1 stagnant2) := rfl

theorem scrollLoop_cycles_le (samples : Nat → List String) (fuel : Nat) :
    ∀ cycle collected stagnantRounds,
      (scrollLoop samples cycle fuel collected stagnantRounds).2 ≤ cycle + fuel := by
  induction fuel with
  | zero => intro cycle collected stagnantRounds; simp [scrollLoop]
  | succ n ih =>
    intro cycle collected stagnantRounds
    rw [scrollLoop_succ]
    simp only
    split
    · split
      · omega
      · have := ih (cycle + 1) (addCards collected (samples cycle)).1 (stagnantRounds + 1)
        omega
    · split
      · omega
      · have := ih (cycle + 1) (addCards collected (samples cycle)).1 0
        omega

theorem addCards_nodup (cs : List String) :
    ∀ collected : List String, collected.Nodup → (addCards collected cs).1.Nodup := by
  induction cs with
  | nil => intro collected h; simpa [addCards] using h
  | cons c cs ih =>
    intro collected h
    by_cases hc : c ∈ collected
    · simpa [addCards, hc] using ih collected h
    · have h2 : (collected ++ [c]).Nodup := by
        simp [List.nodup_append, h, hc]
      simpa [addCards, hc] using ih (collected ++ [c]) h2

theorem scrollLoop_nodup (samples : Nat → List String) (fuel : Nat) :
    ∀ cycle collected stagnantRounds, collected.Nodup →
      (scrollLoop samples cycle fuel collected stagnantRounds).1.Nodup := by
  induction fuel with
  | zero => intro cycle collected stagnantRounds h; simpa [scrollLoop] using h
  | succ n ih =>
    intro cycle collected stagnantRounds h
    rw [scrollLoop_succ]
    simp only
    split <;> split
    all_goals
      first
      | exact addCards_nodup (samples cycle) collected h
      | exact ih (cycle + 1) _ _ (addCards_nodup (samples cycle) collected h)

/-- **C7.** `autoScrollAndCollect` never samples more than `MAX_SCROLL_CYCLES`
(12) cycles and returns distinct items; it stops at the first cycle at which
the minimum batch size (20) is reached (in particular, a first sample of ≥ 20
distinct keys means exactly one cycle) or `STAGNANT_LIMIT` (3) consecutive
samples yield zero new items; concretely, 8 distinct items followed by
samples with nothing new returns exactly those 8 items after 4 cycles. -/
theorem scroll_convergence :
    (∀ samples, (autoScrollAndCollect samples).2 ≤ MAX_SCROLL_CYCLES) ∧
    (∀ samples, (autoScrollAndCollect samples).1.Nodup) ∧
    (∀ samples, MIN_BATCH_SIZE ≤ (addCards [] (samples 0)).1.length →
      autoScrollAndCollect samples = ((addCards [] (samples 0)).1, 1)) ∧
    autoScrollAndCollect
        (fun c => if c = 0 then ["a", "b", "c", "d", "e", "f", "g", "h"]
                  else ["a"]) =
      (["a", "b", "c", "d", "e", "f", "g", "h"], 4) := by
  refine ⟨?_, ?_, ?_, ?_⟩
  · intro samples
    simpa using scrollLoop_cycles_le samples MAX_SCROLL_CYCLES 0 [] 0
  · intro samples
    exact scrollLoop_nodup samples MAX_SCROLL_CYCLES 0 [] 0 List.nodup_nil
  · intro samples h
    have h12 : MAX_SCROLL_CYCLES = 11 + 1 := rfl
    rw [autoScrollAndCollect, h12, scrollLoop_succ]
    simp [h]
  · decide

/-- Witness for C7's batch-size conjunct: a first sample of 20 distinct keys
stops after exactly one cycle with those 20 keys. -/
theorem scroll_convergence_witness :
    autoScrollAndCollect (fun _ =>
      ["01", "02", "03", "04", "05", "06", "07", "08", "09", "10",
       "11", "12", "13", "14", "15", "16", "17", "18", "19", "20"]) =
      (["01", "02", "03", "04", "05", "06", "07", "08", "09", "10",
        "11", "12", "13", "14", "15", "16", "17", "18", "19", "20"], 1) := by
  have h := scroll_convergence.2.2.1 (fun _ =>
      ["01", "02", "03", "04", "05", "06", "07", "08", "09", "10",
       "11", "12", "13", "14", "15", "16", "17", "18", "19", "20"]) (by decide)
  rw [h]
  decide

/-! ### UI-automation action executor (`src/x-actions.ts`) -/

/-- Which controls the page currently exposes to the locator steps of
`undoRepost` and `deleteOriginal` (`true` = the lookup finds the control). -/
structure UiEnv where
  unretweetBtn : Bool
  unretweetConfirm : Bool
  caret : Bool
  deleteMenuItem : Bool
  confirmSheet : Bool
  deriving DecidableEq, Repr

/-- The string-literal outcomes of the two UI actions. -/
inductive UiOutcome where
  | unreposted
  | deleted
  | skipped
  | error
  deriving DecidableEq, Repr

/-- `undoRepost`: missing unretweet button → `'skipped'`; missing confirmation
button → `'error'`; otherwise `'unreposted'`. -/
def undoRepost (env : UiEnv) : UiOutcome :=
  if env.unretweetBtn = false then .skipped
  else if env.unretweetConfirm = false then .error
  else .unreposted

/-- `deleteOriginal`: missing caret → `'skipped'`; missing delete menu item →
`'skipped'`; missing confirmation → `'error'`; otherwise `'deleted'`. -/
def deleteOriginal (env : UiEnv) : UiOutcome :=
  if env.caret = false then .skipped
  else if env.deleteMenuItem = false then .skipped
  else if env.confirmSheet = false then .error
  else .deleted

/-- **C9, counterexample.** The claim says every non-primary locate failure —
including the delete menu item — yields `'error'`. The code returns
`'skipped'` when the caret opened but the delete menu item is missing
(`src/x-actions.ts` line 109). -/
theorem delete_menu_missing_cex :
    deleteOriginal ⟨true, true, true, false, true⟩ = UiOutcome.skipped ∧
    UiOutcome.skipped ≠ UiOutcome.error := by decide

/-- **C9, amended.** A missing primary control (the unretweet button or the
caret) yields `'skipped'`, and so does a missing delete menu item; only the
confirmation controls (`unretweetConfirm`, `confirmationSheetConfirm`) yield
`'error'` when they cannot be located. -/
theorem ui_locate_failure_outcomes (env : UiEnv) :
    undoRepost { env with unretweetBtn := false } = UiOutcome.skipped ∧
    undoRepost { env with unretweetBtn := true, unretweetConfirm := false } =
      UiOutcome.error ∧
    deleteOriginal { env with caret := false } = UiOutcome.skipped ∧
    deleteOriginal { env with caret := true, deleteMenuItem := false } =
      UiOutcome.skipped ∧
    deleteOriginal
        { env with caret := true, deleteMenuItem := true, confirmSheet := false } =
      UiOutcome.error := by
  refine ⟨?_, ?_, ?_, ?_, ?_⟩ <;> simp [undoRepost, deleteOriginal]

/-! ### Metered API client (`src/x-api.ts`) -/

/-- `referenced_tweets[].type`. -/
inductive RefKind where
  | retweeted
  | quoted
  | repliedTo
  deriving DecidableEq, Repr

/-- One entry of `referenced_tweets`. -/
structure ReferencedTweet where
  kind : RefKind
  id : String
  deriving DecidableEq, Repr

/-- `TimelineTweet` (the fields the engine reads). -/
structure TimelineTweet where
  id : String
  referenced_tweets : Option (List ReferencedTweet)
  deriving DecidableEq, Repr

/-- `retweetTargetId` (`src/main.ts`): the id of the first referenced tweet of
relation `retweeted`, else `null`. -/
def retweetTargetId (t : TimelineTweet) : Option String :=
  (t.referenced_tweets.getD []).findSome? fun ref =>
    if ref.kind = RefKind.retweeted then some ref.id else none

/-- The `data` object of a `DELETE /tweets/:id` response; `none` models a
response with no parsed `data` field (a 204, a non-JSON body, or JSON without
`data`), for which `response.data?.deleted` is `undefined`. -/
structure DeleteTweetData where
  deleted : Bool
  deriving DecidableEq, Repr

/-- The `data` object of a `DELETE /users/:id/retweets/:tweet_id` response. -/
structure UndoRetweetData where
  retweeted : Bool
  deriving DecidableEq, Repr

/-- `XApiClient.deleteTweet` result: `Boolean(response.data?.deleted)`. -/
def deleteTweetSuccess (data : Option DeleteTweetData) : Bool :=
  match data with
  | none => false
  | some d => d.deleted

/-- `XApiClient.undoRetweet` result: `response.data?.retweeted === false`. -/
def undoRetweetSuccess (data : Option UndoRetweetData) : Bool :=
  match data with
  | none => false
  | some d => d.retweeted = false

/-! ### Durable file writes (`saveCheckpoint`, `UsageTracker.persist`) -/

/-- The persisted checkpoint payload (`CheckpointData` in `main.ts`):
the full processed list and the cursor. -/
structure CheckpointData where
  processed : List String
  nextToken : Option Nat
  deriving DecidableEq, Repr

/-- `join(process.cwd(), 'state', 'checkpoint.json')`, relative to cwd. -/
def CHECKPOINT_PATH : String := "state/checkpoint.json"

/-- `join(process.cwd(), 'state', 'usage.json')`, relative to cwd. -/
def USAGE_FILE : String := "state/usage.json"

/-- The vocabulary of `node:fs` calls the persistence helpers can issue. -/
inductive FsOp where
  | mkdirRecursive (path : String)
  | writeCheckpointFile (path : String) (data : CheckpointData)
  | writeUsageFile (path : String) (data : UsageState)
  | renameFile (src : String) (dst : String)
  | appendToFile (path : String)
  deriving DecidableEq, Repr

/-- Whether an op is a rename (the "then-replace" step of an atomic
write-temp-then-rename overwrite). -/
def FsOp.isRenameOp : FsOp → Bool
  | .renameFile _ _ => true
  | _ => false

/-- Whether an op is an append. -/
def FsOp.isAppendOp : FsOp → Bool
  | .appendToFile _ => true
  | _ => false

/-- Whether an op writes file contents. -/
def FsOp.isWriteOp : FsOp → Bool
  | .writeCheckpointFile _ _ => true
  | .writeUsageFile _ _ => true
  | _ => false

/-- `saveCheckpoint` (`main.ts` lines 85–92): `ensureStateDir()` (a recursive
mkdir when the directory is missing) followed by one `writeFileSync` of the
serialized full payload to `CHECKPOINT_PATH`. -/
def saveCheckpointOps (stateDirMissing : Bool) (processed : List String)
    (nextToken : Option Nat) : List FsOp :=
  (if stateDirMissing then [FsOp.mkdirRecursive "state"] else []) ++
  [FsOp.writeCheckpointFile CHECKPOINT_PATH ⟨processed, nextToken⟩]

/-- `UsageTracker.persist` (`usage-tracker.ts` lines 116–119): `ensureStateDir()`
followed by one `writeFileSync` of the serialized state to `USAGE_FILE`. -/
def persistOps (stateDirMissing : Bool) (s : UsageState) : List FsOp :=
  (if stateDirMissing then [FsOp.mkdirRecursive "state"] else []) ++
  [FsOp.writeUsageFile USAGE_FILE s]

/-- **C8, counterexample.** The claim says every persistence is a
whole-file-then-replace atomic overwrite — i.e. a write to a temporary file
followed by a rename onto the target. Concretely, `saveCheckpoint` issues a
single `writeFileSync` directly to the final path and no rename at all (and
`persist` likewise), so the "then-replace" step is absent. -/
theorem save_has_no_replace_step_cex :
    saveCheckpointOps false ["1"] none =
      [FsOp.writeCheckpointFile CHECKPOINT_PATH ⟨["1"], none⟩] ∧
    (saveCheckpointOps false ["1"] none).all (fun op => op.isRenameOp = false) ∧
    (persistOps false ⟨"d1", "m1", 0, 0⟩).all (fun op => op.isRenameOp = false) := by
  decide

/-- **C8, amended.** Every persistence of the checkpoint file and of the usage
file serializes the full current state and issues exactly one whole-file
`writeFileSync` directly to the target path — no append or partial write, and
no temp-file-and-rename replace step, so the crash-mid-write atomicity the
spec ascribes to a replace is not provided by the call sequence itself. -/
theorem persistence_whole_file_direct (stateDirMissing : Bool)
    (processed : List String) (nextToken : Option Nat) (s : UsageState) :
    (saveCheckpointOps stateDirMissing processed nextToken).filter
        (fun op => op.isWriteOp) =
      [FsOp.writeCheckpointFile CHECKPOINT_PATH ⟨processed, nextToken⟩] ∧
    (persistOps stateDirMissing s).filter (fun op => op.isWriteOp) =
      [FsOp.writeUsageFile USAGE_FILE s] ∧
    (saveCheckpointOps stateDirMissing processed nextToken).all
      (fun op => op.isRenameOp = false && op.isAppendOp = false) ∧
    (persistOps stateDirMissing s).all
      (fun op => op.isRenameOp = false && op.isAppendOp = false) := by
  refine ⟨?_, ?_, ?_, ?_⟩ <;>
    cases stateDirMissing <;>
      simp [saveCheckpointOps, persistOps, FsOp.isRenameOp, FsOp.isAppendOp,
        FsOp.isWriteOp]

/-! ### Orchestrator run loop (`src/main.ts`, `run`) -/

/-- Outcome of one metered client call (`undoRetweet` / `deleteTweet`) on an
item, as observed by the `try`/`catch` of the `run` loop: `ok b` — the call
returned with success flag `b`; `apiError s` — an `XApiError` with HTTP status
`s` was thrown; `usageLimit` — a `UsageLimitError` was thrown;
`unexpectedError` — any other exception. -/
inductive ApiResult where
  | ok (success : Bool)
  | apiError (status : Nat)
  | usageLimit
  | unexpectedError
  deriving DecidableEq, Repr

/-- `--mode`. -/
inductive Mode where
  | dry
  | auto
  deriving DecidableEq, Repr

/-- `shouldPersist = options.mode === 'auto'`. -/
def shouldPersist : Mode → Bool
  | .auto => true
  | .dry => false

/-- The mutable state of `run`: the `RunStats` counters, the in-memory
`processedSet` in insertion order, the trace of `saveCheckpoint` calls
(set snapshot and the `pageTokenUsed` argument), the trace of Action Executor
invocations (ids on which `undoRetweet`/`deleteTweet` was called), and the
number of successful usage consumptions (`usage.consume(1, …)` in `request`). -/
structure St where
  processed : Nat
  deleted : Nat
  unreposted : Nat
  skipped : Nat
  errors : Nat
  timelinePages : Nat
  processedSet : List String
  saves : List (List String × Option Nat)
  acts : List String
  usage : Nat
  deriving DecidableEq, Repr

/-- The state at the top of `run`: zero counters, empty set and traces. -/
def emptySt : St := ⟨0, 0, 0, 0, 0, 0, [], [], [], 0⟩

/-- `options.max && stats.processed >= options.max` — JS truthiness: an absent
(or zero) max never triggers the cap. -/
def capHit (max : Option Nat) (processed : Nat) : Bool :=
  match max with
  | none => false
  | some m => m ≠ 0 && m ≤ processed

/-- Record one `saveCheckpoint(processedSet, tok)` call. -/
def saveCk (st : St) (tok : Option Nat) : St :=
  { st with saves := st.saves ++ [(st.processedSet, tok)] }

/-- How one iteration of `for (const tweet of timeline.tweets)` ends. -/
inductive ItemExit where
  | next
  | capBreak
  | limitBreak
  deriving DecidableEq, Repr

/-- One iteration of the per-tweet loop body (`main.ts` lines 230–315):
cap check, checkpoint-membership skip, dry-run classification, or the
metered call with its outcome handling (404 → settle as skipped,
429/usage limit → break the outer loop, other errors → count and continue). -/
def procItem (mode : Mode) (max : Option Nat) (act : TimelineTweet → ApiResult)
    (persist : Bool) (tokUsed : Option Nat) (st : St) (t : TimelineTweet) :
    St × ItemExit :=
  if capHit max st.processed then (st, .capBreak)
  else if t.id ∈ st.processedSet then
    ({ st with skipped := st.skipped + 1, processed := st.processed + 1 }, .next)
  else
    let targetTweetId := retweetTargetId t
    match mode with
    | .dry =>
      match targetTweetId with
      | some _ =>
        ({ st with processed := st.processed + 1,
                   unreposted := st.unreposted + 1 }, .next)
      | none =>
        ({ st with processed := st.processed + 1,
                   deleted := st.deleted + 1 }, .next)
    | .auto =>
      let st := { st with acts := st.acts ++ [t.id] }
      match act t with
      | .usageLimit => (st, .limitBreak)
      | .unexpectedError =>
        ({ st with usage := st.usage + 1, errors := st.errors + 1,
                   processed := st.processed + 1 }, .next)
      | .ok success =>
        let st := { st with usage := st.usage + 1 }
        let st :=
          match targetTweetId with
          | some _ =>
            if success then { st with unreposted := st.unreposted + 1 }
            else { st with skipped := st.skipped + 1 }
          | none =>
            if success then { st with deleted := st.deleted + 1 }
            else { st with skipped := st.skipped + 1 }
        let st := { st with processed := st.processed + 1,
                            processedSet := st.processedSet ++ [t.id] }
        (if persist then saveCk st tokUsed else st, .next)
      | .apiError status =>
        let st := { st with usage := st.usage + 1 }
        if status = 404 then
          let st := { st with skipped := st.skipped + 1,
                              processed := st.processed + 1,
                              processedSet := st.processedSet ++ [t.id] }
          (if persist then saveCk st tokUsed else st, .next)
        else if status = 429 then (st, .limitBreak)
        else ({ st with errors := st.errors + 1,
                        processed := st.processed + 1 }, .next)

/-- How the per-page loop ends. -/
inductive PageExit where
  | pageDone
  | brokeCap
  | brokeLimit
  deriving DecidableEq, Repr

/-- The `for (const tweet of timeline.tweets)` loop. -/
def runPage (mode : Mode) (max : Option Nat) (act : TimelineTweet → ApiResult)
    (persist : Bool) (tokUsed : Option Nat) :
    St → List TimelineTweet → St × PageExit
  | st, [] => (st, .pageDone)
  | st, t :: ts =>
    match procItem mode max act persist tokUsed st t with
    | (st', .next) => runPage mode max act persist tokUsed st' ts
    | (st', .capBreak) => (st', .brokeCap)
    | (st', .limitBreak) => (st', .brokeLimit)

/-- Terminal states of the run loop. -/
inductive RunExit where
  | exhausted
  | capReached
  | limitStopped
  deriving DecidableEq, Repr

/-- The `outer: while (true)` loop of `run`, modelled over the sequence of
timeline pages the source serves from the current pagination token on. `tok`
is the token the head page is fetched with (the loop's `pageTokenUsed`);
the page after it carries `next_token` `nextIdx`, the one after `nextIdx + 1`,
and the last page carries none. Each successful fetch consumes one usage unit
and bumps `timelinePages`; an empty page, and a page without `next_token`,
persist (in auto mode) and end the loop. -/
def runPages (mode : Mode) (max : Option Nat) (act : TimelineTweet → ApiResult)
    (persist : Bool) :
    St → Option Nat → Nat → List (List TimelineTweet) → St × RunExit
  | st, _, _, [] => (st, .exhausted)
  | st, tok, nextIdx, tweets :: rest =>
    if capHit max st.processed then (st, .capReached)
    else
      let st2 := { st with usage := st.usage + 1,
                           timelinePages := st.timelinePages + 1 }
      match tweets with
      | [] => (if persist then saveCk st2 tok else st2, .exhausted)
      | _ :: _ =>
        match runPage mode max act persist tok st2 tweets with
        | (st', .brokeCap) => (st', .capReached)
        | (st', .brokeLimit) => (st', .limitStopped)
        | (st', .pageDone) =>
          match rest with
          | [] => (if persist then saveCk st' none else st', .exhausted)
          | _ :: _ =>
            runPages mode max act persist
              (if persist then saveCk st' (some nextIdx) else st')
              (some nextIdx) (nextIdx + 1) rest

/-- `loadCheckpoint` (`main.ts` lines 67–83): empty state unless resume is
requested and a stored file exists and parses. -/
def loadCheckpoint (resume : Bool) (stored : Option CheckpointData) :
    CheckpointData :=
  if resume = false then ⟨[], none⟩
  else
    match stored with
    | none => ⟨[], none⟩
    | some c => c

/-! #### The settled-id set of an auto-mode run

For a deterministic outcome oracle in auto mode without a cap, the evolution
of `processedSet` over one item depends only on the set itself: already-present
ids are skipped, returned calls (successful or not) and 404s append the id,
other errors leave it out. `settleStep`/`settleList` capture exactly this
projection of `procItem`/`runPage`. -/

/-- Set effect of one loop iteration (auto mode, cap not hit). -/
def settleStep (act : TimelineTweet → ApiResult) (S : List String)
    (t : TimelineTweet) : List String :=
  if t.id ∈ S then S
  else
    match act t with
    | .ok _ => S ++ [t.id]
    | .apiError status => if status = 404 then S ++ [t.id] else S
    | .usageLimit => S
    | .unexpectedError => S

/-- Set effect of a sequence of iterations. -/
def settleList (act : TimelineTweet → ApiResult) :
    List String → List TimelineTweet → List String
  | S, [] => S
  | S, t :: ts => settleList act (settleStep act S t) ts

theorem settleList_append (act : TimelineTweet → ApiResult)
    (a : List TimelineTweet) :
    ∀ (S : List String) (b : List TimelineTweet),
      settleList act S (a ++ b) = settleList act (settleList act S a) b := by
  induction a with
  | nil => intro S b; rfl
  | cons t ts ih => intro S b; simpa [settleList] using ih (settleStep act S t) b

theorem settleStep_mem_mono (act : TimelineTweet → ApiResult) (S : List String)
    (t : TimelineTweet) (y : String) (hy : y ∈ S) : y ∈ settleStep act S t := by
  unfold settleStep
  split
  · exact hy
  · split <;> first
      | exact List.mem_append_left _ hy
      | exact hy
      | (split
         · exact List.mem_append_left _ hy
         · exact hy)

theorem settleList_mem_mono (act : TimelineTweet → ApiResult)
    (l : List TimelineTweet) :
    ∀ (S : List String) (y : String), y ∈ S → y ∈ settleList act S l := by
  induction l with
  | nil => intro S y hy; exact hy
  | cons t ts ih =>
    intro S y hy
    exact ih (settleStep act S t) y (settleStep_mem_mono act S t y hy)

/-- If every id that one step from `S` can produce is already in `T`, then the
same step from `T` changes nothing: deterministic outcomes make re-processing
a no-op on the set. -/
theorem settleStep_already (act : TimelineTweet → ApiResult)
    (S T : List String) (x : TimelineTweet)
    (hsub : ∀ y, y ∈ settleStep act S x → y ∈ T) :
    settleStep act T x = T := by
  by_cases hT : x.id ∈ T
  · simp [settleStep, hT]
  · have hS : x.id ∉ S := fun h =>
      hT (hsub x.id (settleStep_mem_mono act S x x.id h))
    cases hact : act x with
    | ok b =>
      exact absurd (hsub x.id (by simp [settleStep, hS, hact])) hT
    | apiError status =>
      by_cases h404 : status = 404
      · exact absurd (hsub x.id (by simp [settleStep, hS, hact, h404])) hT
      · simp [settleStep, hT, hact, h404]
    | usageLimit => simp [settleStep, hT, hact]
    | unexpectedError => simp [settleStep, hT, hact]

/-- Re-running a list from the set reached after any prefix of it produces the
same set as running it once: the core of idempotent resume. -/
theorem settleList_take_idem (act : TimelineTweet → ApiResult)
    (l : List TimelineTweet) :
    ∀ (S : List String) (k : Nat),
      settleList act (settleList act S (l.take k)) l = settleList act S l := by
  induction l with
  | nil => intro S k; simp [settleList]
  | cons x l' ih =>
    intro S k
    cases k with
    | zero => simp [settleList]
    | succ j =>
      have hstep :
          settleStep act (settleList act (settleStep act S x) (l'.take j)) x =
            settleList act (settleStep act S x) (l'.take j) :=
        settleStep_already act S _ x
          (fun y hy => settleList_mem_mono act (l'.take j) (settleStep act S x) y hy)
      calc settleList act (settleList act S ((x :: l').take (j + 1))) (x :: l')
          = settleList act
              (settleStep act (settleList act (settleStep act S x) (l'.take j)) x)
              l' := by
            simp [settleList, List.take_succ_cons]
        _ = settleList act (settleList act (settleStep act S x) (l'.take j)) l' := by
            rw [hstep]
        _ = settleList act (settleStep act S x) l' := ih (settleStep act S x) j
        _ = settleList act S (x :: l') := by simp [settleList]

theorem procItem_set (act : TimelineTweet → ApiResult) (persist : Bool)
    (tok : Option Nat) (st : St) (t : TimelineTweet)
    (hnostop : act t ≠ ApiResult.usageLimit ∧ act t ≠ ApiResult.apiError 429) :
    (procItem .auto none act persist tok st t).2 = ItemExit.next ∧
    (procItem .auto none act persist tok st t).1.processedSet =
      settleStep act st.processedSet t := by
  by_cases hmem : t.id ∈ st.processedSet
  · simp [procItem, capHit, hmem, settleStep]
  · cases hact : act t with
    | ok b =>
      cases htgt : retweetTargetId t <;> cases b <;> cases persist <;>
        simp [procItem, capHit, hmem, hact, htgt, settleStep, saveCk]
    | apiError status =>
      by_cases h404 : status = 404
      · cases persist <;>
          simp [procItem, capHit, hmem, hact, h404, settleStep, saveCk]
      · have h429 : status ≠ 429 := fun h => hnostop.2 (h ▸ hact)
        simp [procItem, capHit, hmem, hact, h404, h429, settleStep]
    | usageLimit => exact absurd hact hnostop.1
    | unexpectedError => simp [procItem, capHit, hmem, hact, settleStep]

theorem runPage_set (act : TimelineTweet → ApiResult) (persist : Bool)
    (tok : Option Nat) (tweets : List TimelineTweet) :
    ∀ st : St,
      (∀ u ∈ tweets,
        act u ≠ ApiResult.usageLimit ∧ act u ≠ ApiResult.apiError 429) →
      (runPage .auto none act persist tok st tweets).2 = PageExit.pageDone ∧
      (runPage .auto none act persist tok st tweets).1.processedSet =
        settleList act st.processedSet tweets := by
  induction tweets with
  | nil => intro st _; exact ⟨rfl, rfl⟩
  | cons t ts ih =>
    intro st hns
    obtain ⟨hex, hset⟩ :=
      procItem_set act persist tok st t (hns t (List.mem_cons_self t ts))
    have hns' : ∀ u ∈ ts,
        act u ≠ ApiResult.usageLimit ∧ act u ≠ ApiResult.apiError 429 :=
      fun u hu => hns u (List.mem_cons_of_mem t hu)
    cases hp : procItem .auto none act persist tok st t with
    | mk st1 ex =>
      rw [hp] at hex hset
      simp only at hex hset
      subst hex
      obtain ⟨ih1, ih2⟩ := ih st1 hns'
      constructor
      · simpa [runPage, hp] using ih1
      · calc (runPage .auto none act persist tok st (t :: ts)).1.processedSet
            = (runPage .auto none act persist tok st1 ts).1.processedSet := by
              simp [runPage, hp]
          _ = settleList act st1.processedSet ts := ih2
          _ = settleList act st.processedSet (t :: ts) := by rw [hset]; rfl

theorem ite_saveCk_processedSet (persist : Bool) (st : St) (tok : Option Nat) :
    (if persist then saveCk st tok else st).processedSet = st.processedSet := by
  cases persist <;> rfl

theorem ite_saveCk_acts (persist : Bool) (st : St) (tok : Option Nat) :
    (if persist then saveCk st tok else st).acts = st.acts := by
  cases persist <;> rfl

theorem runPages_set (act : TimelineTweet → ApiResult) (persist : Bool)
    (pages : List (List TimelineTweet)) :
    ∀ (st : St) (tok : Option Nat) (nextIdx : Nat),
      (∀ p ∈ pages, p ≠ ([] : List TimelineTweet)) →
      (∀ u ∈ pages.flatten,
        act u ≠ ApiResult.usageLimit ∧ act u ≠ ApiResult.apiError 429) →
      (runPages .auto none act persist st tok nextIdx pages).1.processedSet =
        settleList act st.processedSet pages.flatten := by
  induction pages with
  | nil => intro st tok nextIdx _ _; rfl
  | cons tweets rest ih =>
    intro st tok nextIdx hne hns
    have hTne : tweets ≠ [] := hne tweets (List.mem_cons_self tweets rest)
    have hnsT : ∀ u ∈ tweets,
        act u ≠ ApiResult.usageLimit ∧ act u ≠ ApiResult.apiError 429 :=
      fun u hu => hns u (by rw [List.flatten_cons]; exact List.mem_append_left _ hu)
    obtain ⟨hpd, hpset⟩ := runPage_set act persist tok tweets
      { st with usage := st.usage + 1, timelinePages := st.timelinePages + 1 } hnsT
    cases hq : runPage .auto none act persist tok
        { st with usage := st.usage + 1, timelinePages := st.timelinePages + 1 }
        tweets with
    | mk st' ex =>
      rw [hq] at hpd hpset
      simp only at hpd hpset
      subst hpd
      obtain ⟨t0, ts0, hT⟩ : ∃ t0 ts0, tweets = t0 :: ts0 := by
        cases tweets with
        | nil => exact absurd rfl hTne
        | cons a b => exact ⟨a, b, rfl⟩
      subst hT
      cases rest with
      | nil =>
        calc (runPages .auto none act persist st tok nextIdx [t0 :: ts0]).1.processedSet
            = (if persist then saveCk st' none else st').processedSet := by
              simp [runPages, capHit, hq]
          _ = st'.processedSet := ite_saveCk_processedSet persist st' none
          _ = settleList act st.processedSet ([t0 :: ts0] : List (List TimelineTweet)).flatten := by
              rw [hpset]; simp
      | cons r rs =>
        have hne' : ∀ p ∈ r :: rs, p ≠ ([] : List TimelineTweet) :=
          fun p hp => hne p (List.mem_cons_of_mem _ hp)
        have hns' : ∀ u ∈ (r :: rs).flatten,
            act u ≠ ApiResult.usageLimit ∧ act u ≠ ApiResult.apiError 429 :=
          fun u hu => hns u (by rw [List.flatten_cons]; exact List.mem_append_right _ hu)
        have hrec := ih (if persist then saveCk st' (some nextIdx) else st')
          (some nextIdx) (nextIdx + 1) hne' hns'
        calc (runPages .auto none act persist st tok nextIdx
                ((t0 :: ts0) :: r :: rs)).1.processedSet
            = (runPages .auto none act persist
                (if persist then saveCk st' (some nextIdx) else st')
                (some nextIdx) (nextIdx + 1) (r :: rs)).1.processedSet := by
              simp [runPages, capHit, hq]
          _ = settleList act
                (if persist then saveCk st' (some nextIdx) else st').processedSet
                (r :: rs).flatten := hrec
          _ = settleList act st.processedSet ((t0 :: ts0) :: r :: rs).flatten := by
              rw [ite_saveCk_processedSet, hpset]
              simp only [List.flatten_cons]
              rw [settleList_append act (t0 :: ts0), settleList_append act r]

theorem procItem_acts (mode : Mode) (max : Option Nat)
    (act : TimelineTweet → ApiResult) (persist : Bool) (tok : Option Nat)
    (st : St) (t : TimelineTweet) (id : String) (hid : id ∈ st.processedSet) :
    ((id ∈ (procItem mode max act persist tok st t).1.acts ↔ id ∈ st.acts) ∧
      id ∈ (procItem mode max act persist tok st t).1.processedSet) := by
  by_cases hcap : capHit max st.processed = true
  · simp [procItem, hcap, hid]
  · rw [Bool.not_eq_true] at hcap
    by_cases hmem : t.id ∈ st.processedSet
    · simp [procItem, hcap, hmem, hid]
    · have hne : id ≠ t.id := fun h => hmem (h ▸ hid)
      cases mode with
      | dry =>
        cases htgt : retweetTargetId t <;> simp [procItem, hcap, hmem, htgt, hid]
      | auto =>
        cases hact : act t with
        | ok b =>
          cases htgt : retweetTargetId t <;> cases b <;> cases persist <;>
            simp [procItem, hcap, hmem, hact, htgt, saveCk, hid, hne,
              List.mem_append]
        | apiError status =>
          by_cases h404 : status = 404
          · cases persist <;>
              simp [procItem, hcap, hmem, hact, h404, saveCk, hid, hne,
                List.mem_append]
          · by_cases h429 : status = 429 <;>
              simp [procItem, hcap, hmem, hact, h404, h429, hid, hne,
                List.mem_append]
        | usageLimit => simp [procItem, hcap, hmem, hact, hid, hne, List.mem_append]
        | unexpectedError =>
          simp [procItem, hcap, hmem, hact, hid, hne, List.mem_append]

theorem runPage_acts (mode : Mode) (max : Option Nat)
    (act : TimelineTweet → ApiResult) (persist : Bool) (tok : Option Nat)
    (tweets : List TimelineTweet) :
    ∀ (st : St) (id : String), id ∈ st.processedSet →
      ((id ∈ (runPage mode max act persist tok st tweets).1.acts ↔
          id ∈ st.acts) ∧
        id ∈ (runPage mode max act persist tok st tweets).1.processedSet) := by
  induction tweets with
  | nil => intro st id hid; exact ⟨Iff.rfl, hid⟩
  | cons t ts ih =>
    intro st id hid
    obtain ⟨hiff, hset⟩ := procItem_acts mode max act persist tok st t id hid
    cases hp : procItem mode max act persist tok st t with
    | mk st1 ex =>
      rw [hp] at hiff hset
      simp only at hiff hset
      cases ex with
      | next =>
        obtain ⟨ih1, ih2⟩ := ih st1 id hset
        constructor
        · simpa [runPage, hp] using ih1.trans hiff
        · simpa [runPage, hp] using ih2
      | capBreak =>
        exact ⟨by simpa [runPage, hp] using hiff, by simpa [runPage, hp] using hset⟩
      | limitBreak =>
        exact ⟨by simpa [runPage, hp] using hiff, by simpa [runPage, hp] using hset⟩

theorem runPages_acts (mode : Mode) (max : Option Nat)
    (act : TimelineTweet → ApiResult) (persist : Bool)
    (pages : List (List TimelineTweet)) :
    ∀ (st : St) (tok : Option Nat) (nextIdx : Nat) (id : String),
      id ∈ st.processedSet →
      (id ∈ (runPages mode max act persist st tok nextIdx pages).1.acts ↔
        id ∈ st.acts) := by
  induction pages with
  | nil => intro st tok nextIdx id _; exact Iff.rfl
  | cons tweets rest ih =>
    intro st tok nextIdx id hid
    by_cases hcap : capHit max st.processed = true
    · simp [runPages, hcap]
    · rw [Bool.not_eq_true] at hcap
      cases tweets with
      | nil =>
        have : (runPages mode max act persist st tok nextIdx ([] :: rest)).1 =
            (if persist then
              saveCk { st with usage := st.usage + 1,
                               timelinePages := st.timelinePages + 1 } tok
            else { st with usage := st.usage + 1,
                           timelinePages := st.timelinePages + 1 }) := by
          simp [runPages, hcap]
        rw [this, ite_saveCk_acts]
      | cons t0 ts0 =>
        obtain ⟨hiff, hset⟩ := runPage_acts mode max act persist tok (t0 :: ts0)
          { st with usage := st.usage + 1, timelinePages := st.timelinePages + 1 }
          id hid
        cases hq : runPage mode max act persist tok
            { st with usage := st.usage + 1,
                      timelinePages := st.timelinePages + 1 } (t0 :: ts0) with
        | mk st' ex =>
          rw [hq] at hiff hset
          simp only at hiff hset
          cases ex with
          | brokeCap => simpa [runPages, hcap, hq] using hiff
          | brokeLimit => simpa [runPages, hcap, hq] using hiff
          | pageDone =>
            cases rest with
            | nil =>
              have : (runPages mode max act persist st tok nextIdx
                  [t0 :: ts0]).1 = (if persist then saveCk st' none else st') := by
                simp [runPages, hcap, hq]
              rw [this, ite_saveCk_acts]
              exact hiff
            | cons r rs =>
              have hid' : id ∈
                  (if persist then saveCk st' (some nextIdx) else st').processedSet := by
                rw [ite_saveCk_processedSet]; exact hset
              have hrec := ih (if persist then saveCk st' (some nextIdx) else st')
                (some nextIdx) (nextIdx + 1) id hid'
              have hstep : (runPages mode max act persist st tok nextIdx
                  ((t0 :: ts0) :: r :: rs)) =
                  runPages mode max act persist
                    (if persist then saveCk st' (some nextIdx) else st')
                    (some nextIdx) (nextIdx + 1) (r :: rs) := by
                simp [runPages, hcap, hq]
              rw [hstep, hrec, ite_saveCk_acts]
              exact hiff

/-- **C1.** Idempotent resume. (i) Any id already in the in-memory processed
set when the loop starts — for a resumed run, every id of the loaded
checkpoint — is never passed to the Action Executor during the rest of the
run, whatever the mode, cap and outcomes. (ii) The per-item handling of an
already-present id only counts it as skipped and processed, touching nothing
else. (iii) Interrupting an uncapped auto-mode run (deterministic outcomes
with no quota/rate-limit stop, non-empty pages) after the pages `P` plus the
first `k` items of page `q` leaves a checkpoint whose processed set is
`settleList act [] (P.flatten ++ q.take k)` and whose cursor re-fetches `q`;
resuming from it over the same remaining content ends with the same
processed-id set as one uninterrupted run over all of `P ++ q :: rest`. -/
theorem resume_idempotent :
    (∀ (mode : Mode) (max : Option Nat) (act : TimelineTweet → ApiResult)
        (persist : Bool) (st : St) (tok : Option Nat) (nextIdx : Nat)
        (pages : List (List TimelineTweet)) (id : String),
      id ∈ st.processedSet →
      (id ∈ (runPages mode max act persist st tok nextIdx pages).1.acts ↔
        id ∈ st.acts)) ∧
    (∀ (mode : Mode) (max : Option Nat) (act : TimelineTweet → ApiResult)
        (persist : Bool) (tok : Option Nat) (st : St) (t : TimelineTweet),
      capHit max st.processed = false → t.id ∈ st.processedSet →
      procItem mode max act persist tok st t =
        ({ st with skipped := st.skipped + 1, processed := st.processed + 1 },
          ItemExit.next)) ∧
    (∀ (act : TimelineTweet → ApiResult) (persist : Bool)
        (P : List (List TimelineTweet)) (q : List TimelineTweet)
        (rest : List (List TimelineTweet)) (k c nextIdx : Nat),
      (∀ p ∈ P ++ q :: rest, p ≠ ([] : List TimelineTweet)) →
      (∀ u ∈ (P ++ q :: rest).flatten,
        act u ≠ ApiResult.usageLimit ∧ act u ≠ ApiResult.apiError 429) →
      (runPages .auto none act persist
          { emptySt with
              processedSet := settleList act [] (P.flatten ++ q.take k) }
          (some c) nextIdx (q :: rest)).1.processedSet =
        (runPages .auto none act persist emptySt none 1
          (P ++ q :: rest)).1.processedSet) := by
  refine ⟨?_, ?_, ?_⟩
  · intro mode max act persist st tok nextIdx pages id hid
    exact runPages_acts mode max act persist pages st tok nextIdx id hid
  · intro mode max act persist tok st t hcap hmem
    simp [procItem, hcap, hmem]
  · intro act persist P q rest k c nextIdx hne hns
    have hneq : ∀ p ∈ q :: rest, p ≠ ([] : List TimelineTweet) :=
      fun p hp => hne p (List.mem_append_right P hp)
    have hnsq : ∀ u ∈ (q :: rest).flatten,
        act u ≠ ApiResult.usageLimit ∧ act u ≠ ApiResult.apiError 429 :=
      fun u hu => hns u (by
        rw [List.flatten_append]
        exact List.mem_append_right _ hu)
    rw [runPages_set act persist (q :: rest) _ (some c) nextIdx hneq hnsq,
      runPages_set act persist (P ++ q :: rest) emptySt none 1 hne hns]
    show settleList act (settleList act [] (P.flatten ++ q.take k))
        (q :: rest).flatten =
      settleList act emptySt.processedSet (P ++ q :: rest).flatten
    rw [List.flatten_append, List.flatten_cons]
    calc settleList act (settleList act [] (P.flatten ++ q.take k))
            (q ++ rest.flatten)
        = settleList act
            (settleList act (settleList act [] P.flatten) (q.take k))
            (q ++ rest.flatten) := by
          rw [settleList_append act P.flatten]
      _ = settleList act
            (settleList act
              (settleList act (settleList act [] P.flatten) (q.take k)) q)
            rest.flatten := by
          rw [settleList_append act q]
      _ = settleList act (settleList act (settleList act [] P.flatten) q)
            rest.flatten := by
          rw [settleList_take_idem act q (settleList act [] P.flatten) k]
      _ = settleList act
            (settleList act (settleList act emptySt.processedSet P.flatten) q)
            rest.flatten := rfl
      _ = settleList act emptySt.processedSet
            (P.flatten ++ (q ++ rest.flatten)) := by
          rw [settleList_append act P.flatten, settleList_append act q]

/-- Witness for C1: interrupting after page `[a]` plus the first item of page
`[b, c]` and resuming over `[b, c]` reaches the same processed set as the
uninterrupted run over both pages. -/
theorem resume_idempotent_witness :
    (runPages .auto none (fun _ => ApiResult.ok true) true
        { emptySt with
            processedSet := settleList (fun _ => ApiResult.ok true) []
              (([[⟨"a", none⟩]] : List (List TimelineTweet)).flatten ++
                ([⟨"b", none⟩, ⟨"c", none⟩] : List TimelineTweet).take 1) }
        (some 1) 2 [[⟨"b", none⟩, ⟨"c", none⟩]]).1.processedSet =
      (runPages .auto none (fun _ => ApiResult.ok true) true emptySt none 1
        ([[⟨"a", none⟩]] ++ [⟨"b", none⟩, ⟨"c", none⟩] :: [])).1.processedSet :=
  resume_idempotent.2.2 (fun _ => ApiResult.ok true) true [[⟨"a", none⟩]]
    [⟨"b", none⟩, ⟨"c", none⟩] [] 1 1 2 (by decide) (by decide)

theorem procItem_auto_ok (max : Option Nat) (act : TimelineTweet → ApiResult)
    (tok : Option Nat) (st : St) (t : TimelineTweet) (b : Bool)
    (hcap : capHit max st.processed = false)
    (hfresh : t.id ∉ st.processedSet)
    (hb : act t = ApiResult.ok b) :
    (procItem .auto max act true tok st t).2 = ItemExit.next ∧
    (procItem .auto max act true tok st t).1.processed = st.processed + 1 ∧
    (procItem .auto max act true tok st t).1.processedSet =
      st.processedSet ++ [t.id] ∧
    (procItem .auto max act true tok st t).1.saves =
      st.saves ++ [(st.processedSet ++ [t.id], tok)] := by
  cases htgt : retweetTargetId t <;> cases b <;>
    simp [procItem, hcap, hfresh, hb, htgt, saveCk]

theorem runPage_cap (M : Nat) (act : TimelineTweet → ApiResult) (tok : Option Nat) :
    ∀ (tweets : List TimelineTweet) (st : St),
      (∀ u ∈ tweets, ∃ b, act u = ApiResult.ok b) →
      (∀ u ∈ tweets, u.id ∉ st.processedSet) →
      (tweets.map (fun u => u.id)).Nodup →
      st.processed < M →
      M - st.processed < tweets.length →
      (runPage .auto (some M) act true tok st tweets).2 = PageExit.brokeCap ∧
      (runPage .auto (some M) act true tok st tweets).1.processed = M ∧
      (runPage .auto (some M) act true tok st tweets).1.processedSet =
        st.processedSet ++ (tweets.take (M - st.processed)).map (fun u => u.id) ∧
      (runPage .auto (some M) act true tok st tweets).1.saves.getLast? =
        some ((runPage .auto (some M) act true tok st tweets).1.processedSet,
          tok) := by
  intro tweets
  induction tweets with
  | nil =>
    intro st _ _ _ _ hlen
    exact absurd hlen (by simp)
  | cons t ts ih =>
    intro st hok hfresh hnd hlt hlen
    have hcap : capHit (some M) st.processed = false := by
      simp [capHit]; omega
    obtain ⟨b, hb⟩ := hok t (List.mem_cons_self t ts)
    obtain ⟨hex, hproc, hset, hsaves⟩ :=
      procItem_auto_ok (some M) act tok st t b hcap
        (hfresh t (List.mem_cons_self t ts)) hb
    have htid : t.id ∉ ts.map (fun u => u.id) := (List.nodup_cons.mp hnd).1
    cases hp : procItem .auto (some M) act true tok st t with
    | mk st1 ex =>
      rw [hp] at hex hproc hset hsaves
      simp only at hex hproc hset hsaves
      subst hex
      by_cases hM : st.processed + 1 < M
      · have hfresh' : ∀ u ∈ ts, u.id ∉ st1.processedSet := by
          intro u hu
          rw [hset]
          simp only [List.mem_append, List.mem_singleton]
          rintro (h | h)
          · exact hfresh u (List.mem_cons_of_mem t hu) h
          · exact htid (h ▸ List.mem_map_of_mem (fun u => u.id) hu)
        have hnd' : (ts.map (fun u => u.id)).Nodup := (List.nodup_cons.mp hnd).2
        have hok' : ∀ u ∈ ts, ∃ b, act u = ApiResult.ok b :=
          fun u hu => hok u (List.mem_cons_of_mem t hu)
        have hlt' : st1.processed < M := by omega
        have hlen' : M - st1.processed < ts.length := by
          rw [hproc]; simp at hlen; omega
        obtain ⟨e1, e2, e3, e4⟩ := ih st1 hok' hfresh' hnd' hlt' hlen'
        refine ⟨?_, ?_, ?_, ?_⟩
        · simpa [runPage, hp] using e1
        · simpa [runPage, hp] using e2
        · have htake : M - st.processed = (M - (st.processed + 1)) + 1 := by omega
          calc (runPage .auto (some M) act true tok st (t :: ts)).1.processedSet
              = (runPage .auto (some M) act true tok st1 ts).1.processedSet := by
                simp [runPage, hp]
            _ = st1.processedSet ++
                  (ts.take (M - st1.processed)).map (fun u => u.id) := e3
            _ = st.processedSet ++
                  ((t :: ts).take (M - st.processed)).map (fun u => u.id) := by
                rw [hset, hproc, htake, List.take_succ_cons]
                simp
        · simpa [runPage, hp] using e4
      · have hMeq : M = st.processed + 1 := by omega
        obtain ⟨t2, ts2, hts⟩ : ∃ t2 ts2, ts = t2 :: ts2 := by
          cases ts with
          | nil => exfalso; simp at hlen; omega
          | cons a bs => exact ⟨a, bs, rfl⟩
        subst hts
        have hcap1 : capHit (some M) st1.processed = true := by
          simp [capHit, hproc]; omega
        have hp2 : procItem .auto (some M) act true tok st1 t2 =
            (st1, ItemExit.capBreak) := by
          simp [procItem, hcap1]
        have hrun : runPage .auto (some M) act true tok st (t :: t2 :: ts2) =
            (st1, PageExit.brokeCap) := by
          simp [runPage, hp, hp2]
        refine ⟨?_, ?_, ?_, ?_⟩
        · simp [hrun]
        · simp [hrun, hproc]; omega
        · rw [hrun]
          simp only
          rw [hset]
          have h1 : M - st.processed = 1 := by omega
          rw [h1]
          simp
        · rw [hrun]
          simp only
          rw [hsaves, hset]
          simp

/-- **C4.** With a configured cap `M ≥ 1` and a page of more than `M` fresh
eligible items (distinct ids, every call returning), an auto-mode run
increments `processed` exactly `M` times, stops immediately mid-batch in the
`CapReached` terminal state, and the last saved checkpoint holds exactly the
ids of the `M` items settled up to that point. -/
theorem cap_enforcement (M : Nat) (tweets : List TimelineTweet)
    (act : TimelineTweet → ApiResult)
    (hM : 1 ≤ M) (hlen : M < tweets.length)
    (hok : ∀ u ∈ tweets, ∃ b, act u = ApiResult.ok b)
    (hnd : (tweets.map (fun u => u.id)).Nodup) :
    (runPages .auto (some M) act true emptySt none 1 [tweets]).2 =
      RunExit.capReached ∧
    (runPages .auto (some M) act true emptySt none 1 [tweets]).1.processed = M ∧
    (runPages .auto (some M) act true emptySt none 1 [tweets]).1.processedSet =
      (tweets.take M).map (fun u => u.id) ∧
    (runPages .auto (some M) act true emptySt none 1 [tweets]).1.saves.getLast? =
      some ((tweets.take M).map (fun u => u.id), none) := by
  have hcap0 : capHit (some M) emptySt.processed = false := by
    simp [capHit, emptySt]
  obtain ⟨t0, ts0, hT⟩ : ∃ t0 ts0, tweets = t0 :: ts0 := by
    cases tweets with
    | nil => simp at hlen
    | cons a bs => exact ⟨a, bs, rfl⟩
  have hst2 :
      ({ emptySt with usage := emptySt.usage + 1,
                      timelinePages := emptySt.timelinePages + 1 } : St).processed
        = 0 := rfl
  obtain ⟨e1, e2, e3, e4⟩ := runPage_cap M act none tweets
    { emptySt with usage := emptySt.usage + 1,
                   timelinePages := emptySt.timelinePages + 1 }
    hok (fun u _ => by simp [emptySt]) hnd
    (by show (0 : Nat) < M; omega) (by show M - 0 < tweets.length; omega)
  cases hq : runPage .auto (some M) act true none
      { emptySt with usage := emptySt.usage + 1,
                     timelinePages := emptySt.timelinePages + 1 } tweets with
  | mk st' ex =>
    rw [hq] at e1 e2 e3 e4
    simp only at e1 e2 e3 e4
    subst e1
    have hrun : runPages .auto (some M) act true emptySt none 1 [tweets] =
        (st', RunExit.capReached) := by
      rw [hT]
      rw [hT] at hq
      simp [runPages, hcap0, hq]
    rw [hrun]
    refine ⟨rfl, e2, ?_, ?_⟩
    · rw [e3]; rfl
    · rw [e4, e3]; rfl

/-- Witness for C4: cap 2 against a page of 3 fresh items processes exactly 2,
stops with `CapReached`, and the last checkpoint holds exactly those 2 ids. -/
theorem cap_enforcement_witness :
    (runPages .auto (some 2) (fun _ => ApiResult.ok true) true emptySt none 1
      [[⟨"a", none⟩, ⟨"b", none⟩, ⟨"c", none⟩]]).2 = RunExit.capReached ∧
    (runPages .auto (some 2) (fun _ => ApiResult.ok true) true emptySt none 1
      [[⟨"a", none⟩, ⟨"b", none⟩, ⟨"c", none⟩]]).1.processed = 2 ∧
    (runPages .auto (some 2) (fun _ => ApiResult.ok true) true emptySt none 1
      [[⟨"a", none⟩, ⟨"b", none⟩, ⟨"c", none⟩]]).1.processedSet = ["a", "b"] := by
  have h := cap_enforcement 2 [⟨"a", none⟩, ⟨"b", none⟩, ⟨"c", none⟩]
    (fun _ => ApiResult.ok true) (by decide) (by decide)
    (fun u _ => ⟨true, rfl⟩) (by decide)
  exact ⟨h.1, h.2.1, by rw [h.2.2.1]; rfl⟩

theorem procItem_dry (max : Option Nat) (act : TimelineTweet → ApiResult)
    (persist : Bool) (tok : Option Nat) (st : St) (t : TimelineTweet) :
    (procItem .dry max act persist tok st t).1.acts = st.acts ∧
    (procItem .dry max act persist tok st t).1.saves = st.saves ∧
    (procItem .dry max act persist tok st t).1.processedSet = st.processedSet ∧
    (procItem .dry max act persist tok st t).1.usage = st.usage ∧
    (procItem .dry max act persist tok st t).1.timelinePages = st.timelinePages := by
  by_cases hcap : capHit max st.processed = true
  · simp [procItem, hcap]
  · rw [Bool.not_eq_true] at hcap
    by_cases hmem : t.id ∈ st.processedSet
    · simp [procItem, hcap, hmem]
    · cases htgt : retweetTargetId t <;> simp [procItem, hcap, hmem, htgt]

theorem runPage_dry (max : Option Nat) (act : TimelineTweet → ApiResult)
    (persist : Bool) (tok : Option Nat) (tweets : List TimelineTweet) :
    ∀ st : St,
      (runPage .dry max act persist tok st tweets).1.acts = st.acts ∧
      (runPage .dry max act persist tok st tweets).1.saves = st.saves ∧
      (runPage .dry max act persist tok st tweets).1.processedSet =
        st.processedSet ∧
      (runPage .dry max act persist tok st tweets).1.usage = st.usage ∧
      (runPage .dry max act persist tok st tweets).1.timelinePages =
        st.timelinePages := by
  induction tweets with
  | nil => intro st; exact ⟨rfl, rfl, rfl, rfl, rfl⟩
  | cons t ts ih =>
    intro st
    obtain ⟨h1, h2, h3, h4, h5⟩ := procItem_dry max act persist tok st t
    cases hp : procItem .dry max act persist tok st t with
    | mk st1 ex =>
      rw [hp] at h1 h2 h3 h4 h5
      simp only at h1 h2 h3 h4 h5
      cases ex with
      | next =>
        obtain ⟨g1, g2, g3, g4, g5⟩ := ih st1
        exact ⟨by simpa [runPage, hp] using g1.trans h1,
          by simpa [runPage, hp] using g2.trans h2,
          by simpa [runPage, hp] using g3.trans h3,
          by simpa [runPage, hp] using g4.trans h4,
          by simpa [runPage, hp] using g5.trans h5⟩
      | capBreak =>
        exact ⟨by simpa [runPage, hp] using h1, by simpa [runPage, hp] using h2,
          by simpa [runPage, hp] using h3, by simpa [runPage, hp] using h4,
          by simpa [runPage, hp] using h5⟩
      | limitBreak =>
        exact ⟨by simpa [runPage, hp] using h1, by simpa [runPage, hp] using h2,
          by simpa [runPage, hp] using h3, by simpa [runPage, hp] using h4,
          by simpa [runPage, hp] using h5⟩

/-- **C5, counterexample.** The claim says a dry run consumes no budget. A dry
run over one non-empty page fetches that page through `request`, which calls
`usage.consume(1, …)`: the usage counter ends at 1, not its pre-run value 0. -/
theorem dry_run_consumes_budget_cex :
    (runPages .dry none (fun _ => ApiResult.ok true) (shouldPersist .dry)
      emptySt none 1 [[⟨"t1", none⟩]]).1.usage = 1 ∧ (1 : Nat) ≠ 0 := by
  decide

/-- **C5, amended.** In dry mode the Action Executor is never invoked, no
checkpoint is ever written (so loading it afterwards yields the empty set) and
the processed set is untouched; but every timeline page fetched still consumes
one unit of usage budget (and the tracker persists it), so the usage counter
grows by exactly the number of pages fetched. -/
theorem dry_run_purity (max : Option Nat) (act : TimelineTweet → ApiResult)
    (pages : List (List TimelineTweet)) :
    ∀ (st : St) (tok : Option Nat) (nextIdx : Nat),
      (runPages .dry max act (shouldPersist .dry) st tok nextIdx pages).1.acts =
        st.acts ∧
      (runPages .dry max act (shouldPersist .dry) st tok nextIdx pages).1.saves =
        st.saves ∧
      (runPages .dry max act (shouldPersist .dry) st tok nextIdx
          pages).1.processedSet = st.processedSet ∧
      (runPages .dry max act (shouldPersist .dry) st tok nextIdx pages).1.usage +
          st.timelinePages =
        st.usage +
          (runPages .dry max act (shouldPersist .dry) st tok nextIdx
            pages).1.timelinePages ∧
      loadCheckpoint true none = ⟨[], none⟩ := by
  induction pages with
  | nil => intro st tok nextIdx; exact ⟨rfl, rfl, rfl, rfl, rfl⟩
  | cons tweets rest ih =>
    intro st tok nextIdx
    simp only [shouldPersist] at ih ⊢
    by_cases hcap : capHit max st.processed = true
    · refine ⟨?_, ?_, ?_, ?_, rfl⟩ <;> simp [runPages, hcap]
    · rw [Bool.not_eq_true] at hcap
      cases tweets with
      | nil =>
        have hrun : (runPages .dry max act false st tok nextIdx
            ([] :: rest)).1 =
            { st with usage := st.usage + 1,
                      timelinePages := st.timelinePages + 1 } := by
          simp [runPages, hcap]
        rw [hrun]
        exact ⟨rfl, rfl, rfl, by simp only; omega, rfl⟩
      | cons t0 ts0 =>
        obtain ⟨h1, h2, h3, h4, h5⟩ := runPage_dry max act false
          tok (t0 :: ts0)
          { st with usage := st.usage + 1, timelinePages := st.timelinePages + 1 }
        cases hq : runPage .dry max act false tok
            { st with usage := st.usage + 1,
                      timelinePages := st.timelinePages + 1 } (t0 :: ts0) with
        | mk st' ex =>
          rw [hq] at h1 h2 h3 h4 h5
          simp only at h1 h2 h3 h4 h5
          cases ex with
          | brokeCap =>
            have hrun : (runPages .dry max act false st tok
                nextIdx ((t0 :: ts0) :: rest)).1 = st' := by
              simp [runPages, hcap, hq]
            rw [hrun]
            exact ⟨h1, h2, h3, by omega, rfl⟩
          | brokeLimit =>
            have hrun : (runPages .dry max act false st tok
                nextIdx ((t0 :: ts0) :: rest)).1 = st' := by
              simp [runPages, hcap, hq]
            rw [hrun]
            exact ⟨h1, h2, h3, by omega, rfl⟩
          | pageDone =>
            cases rest with
            | nil =>
              have hrun : (runPages .dry max act false st tok
                  nextIdx [t0 :: ts0]).1 = st' := by
                simp [runPages, hcap, hq]
              rw [hrun]
              exact ⟨h1, h2, h3, by omega, rfl⟩
            | cons r rs =>
              obtain ⟨g1, g2, g3, g4, g5⟩ := ih st' (some nextIdx) (nextIdx + 1)
              have hrun : runPages .dry max act false st tok
                  nextIdx ((t0 :: ts0) :: r :: rs) =
                  runPages .dry max act false st' (some nextIdx)
                    (nextIdx + 1) (r :: rs) := by
                simp [runPages, hcap, hq]
              rw [hrun]
              refine ⟨g1.trans h1, g2.trans h2, g3.trans h3, ?_, rfl⟩
              omega

/-- **C6.** When the client call throws a definitive 404 `XApiError`, the loop
increments `skipped` (not `errors`), increments `processed`, appends the id to
the processed set and saves the checkpoint, then continues with the next item;
once the id is in the set, no later iteration on that item invokes the Action
Executor again. -/
theorem notfound_settles (max : Option Nat) (act : TimelineTweet → ApiResult)
    (tokUsed : Option Nat) (st : St) (t : TimelineTweet)
    (hcap : capHit max st.processed = false)
    (hfresh : t.id ∉ st.processedSet)
    (h404 : act t = ApiResult.apiError 404) :
    (procItem .auto max act true tokUsed st t).1.skipped = st.skipped + 1 ∧
    (procItem .auto max act true tokUsed st t).1.errors = st.errors ∧
    (procItem .auto max act true tokUsed st t).1.processed = st.processed + 1 ∧
    (procItem .auto max act true tokUsed st t).1.processedSet =
      st.processedSet ++ [t.id] ∧
    (procItem .auto max act true tokUsed st t).1.saves =
      st.saves ++ [(st.processedSet ++ [t.id], tokUsed)] ∧
    (procItem .auto max act true tokUsed st t).2 = ItemExit.next ∧
    (∀ (mode2 : Mode) (max2 : Option Nat) (act2 : TimelineTweet → ApiResult)
        (persist2 : Bool) (tok2 : Option Nat) (st2 : St),
      t.id ∈ st2.processedSet →
      (procItem mode2 max2 act2 persist2 tok2 st2 t).1.acts = st2.acts) := by
  refine ⟨?_, ?_, ?_, ?_, ?_, ?_, ?_⟩
  · simp [procItem, hcap, hfresh, h404, saveCk]
  · simp [procItem, hcap, hfresh, h404, saveCk]
  · simp [procItem, hcap, hfresh, h404, saveCk]
  · simp [procItem, hcap, hfresh, h404, saveCk]
  · simp [procItem, hcap, hfresh, h404, saveCk]
  · simp [procItem, hcap, hfresh, h404]
  · intro mode2 max2 act2 persist2 tok2 st2 hmem
    by_cases hc : capHit max2 st2.processed = true
    · simp [procItem, hc]
    · rw [Bool.not_eq_true] at hc
      simp [procItem, hc, hmem]

/-- Witness for C6: a fresh item whose call 404s is settled as skipped with its
id checkpointed. -/
theorem notfound_settles_witness :
    (procItem .auto none (fun _ => ApiResult.apiError 404) true none emptySt
      ⟨"t1", none⟩).1.skipped = emptySt.skipped + 1 ∧
    (procItem .auto none (fun _ => ApiResult.apiError 404) true none emptySt
      ⟨"t1", none⟩).1.errors = emptySt.errors ∧
    (procItem .auto none (fun _ => ApiResult.apiError 404) true none emptySt
      ⟨"t1", none⟩).1.processedSet = emptySt.processedSet ++ ["t1"] := by
  have h := notfound_settles none (fun _ => ApiResult.apiError 404) none emptySt
    ⟨"t1", none⟩ rfl (by decide) rfl
  exact ⟨h.1, h.2.1, h.2.2.2.1⟩

/-- **C10.** A retraction call that returns without throwing but does not
confirm success — `deleteTweet` parsing a body without `data.deleted` true,
or `undoRetweet` parsing anything whose `data.retweeted` is not exactly
`false`, both of which produce `false` for an empty 204 or non-JSON body —
makes the loop count the item as skipped (not an error), append its id to the
processed set and save the checkpoint; and an id once in the set is never
passed to the Action Executor again. -/
theorem unconfirmed_retraction_settles (max : Option Nat)
    (act : TimelineTweet → ApiResult) (tokUsed : Option Nat) (st : St)
    (t : TimelineTweet)
    (hcap : capHit max st.processed = false)
    (hfresh : t.id ∉ st.processedSet)
    (hfalse : act t = ApiResult.ok false) :
    deleteTweetSuccess none = false ∧
    undoRetweetSuccess none = false ∧
    undoRetweetSuccess (some ⟨true⟩) = false ∧
    deleteTweetSuccess (some ⟨false⟩) = false ∧
    (procItem .auto max act true tokUsed st t).1.skipped = st.skipped + 1 ∧
    (procItem .auto max act true tokUsed st t).1.errors = st.errors ∧
    (procItem .auto max act true tokUsed st t).1.processed = st.processed + 1 ∧
    (procItem .auto max act true tokUsed st t).1.processedSet =
      st.processedSet ++ [t.id] ∧
    (procItem .auto max act true tokUsed st t).1.saves =
      st.saves ++ [(st.processedSet ++ [t.id], tokUsed)] ∧
    (procItem .auto max act true tokUsed st t).2 = ItemExit.next ∧
    (∀ (mode2 : Mode) (max2 : Option Nat) (act2 : TimelineTweet → ApiResult)
        (persist2 : Bool) (tok2 : Option Nat) (st2 : St),
      t.id ∈ st2.processedSet →
      (procItem mode2 max2 act2 persist2 tok2 st2 t).1.acts = st2.acts) := by
  refine ⟨rfl, rfl, rfl, rfl, ?_, ?_, ?_, ?_, ?_, ?_, ?_⟩
  · cases htgt : retweetTargetId t <;>
      simp [procItem, hcap, hfresh, hfalse, htgt, saveCk]
  · cases htgt : retweetTargetId t <;>
      simp [procItem, hcap, hfresh, hfalse, htgt, saveCk]
  · cases htgt : retweetTargetId t <;>
      simp [procItem, hcap, hfresh, hfalse, htgt, saveCk]
  · cases htgt : retweetTargetId t <;>
      simp [procItem, hcap, hfresh, hfalse, htgt, saveCk]
  · cases htgt : retweetTargetId t <;>
      simp [procItem, hcap, hfresh, hfalse, htgt, saveCk]
  · cases htgt : retweetTargetId t <;>
      simp [procItem, hcap, hfresh, hfalse, htgt]
  · intro mode2 max2 act2 persist2 tok2 st2 hmem
    by_cases hc : capHit max2 st2.processed = true
    · simp [procItem, hc]
    · rw [Bool.not_eq_true] at hc
      simp [procItem, hc, hmem]

/-- Witness for C10: a fresh repost item whose `undoRetweet` reports
`retweeted` not exactly `false` is settled as skipped and checkpointed. -/
theorem unconfirmed_retraction_settles_witness :
    (procItem .auto none (fun _ => ApiResult.ok false) true none emptySt
      ⟨"r1", some [⟨RefKind.retweeted, "s1"⟩]⟩).1.skipped =
        emptySt.skipped + 1 ∧
    (procItem .auto none (fun _ => ApiResult.ok false) true none emptySt
      ⟨"r1", some [⟨RefKind.retweeted, "s1"⟩]⟩).1.processedSet =
        emptySt.processedSet ++ ["r1"] := by
  have h := unconfirmed_retraction_settles none (fun _ => ApiResult.ok false)
    none emptySt ⟨"r1", some [⟨RefKind.retweeted, "s1"⟩]⟩ rfl (by decide) rfl
  exact ⟨h.2.2.2.2.1, h.2.2.2.2.2.2.2.1⟩

end XDelete

